import Mathlib

/-!
Shallow embedding of the chunked transcription/translation pipeline of
`any2en_.py` (class `AudioTranslator`): the validity gate
`is_valid_audio_file`, language detection `detect_language`, the per-chunk
pipeline `transcribe_and_translate`, and the language-memory state
(`detected_lang_cache`, `last_detected_lang`).

The Whisper model is an external collaborator; each of the three
`model.transcribe` call sites in the embedded code is modelled by an
`Except`-valued oracle response (`.error` = the Python call raised).
Confidences are rationals; the Python float literal `0.3` is embedded as
`3/10`.
-/

/-- One kind of backend request: the `task=` argument of `model.transcribe`. -/
inductive TaskKind where
  | transcribeTask
  | translateTask
deriving DecidableEq, Repr

/-- A record of one `model.transcribe` invocation: the language hint passed
(`none` embeds Python `language=None`), the task, and the beam size
(1 for the fast detection call, 5 for the quality calls). -/
structure BackendCall where
  languageHint : Option String
  task : TaskKind
  beamSize : Nat
deriving DecidableEq, Repr

/-- What `model.transcribe` reports about detection: `info.language` and
`info.language_probability`, each possibly absent (the Python code reads them
with `getattr(info, attr, default)`). -/
structure DetectInfo where
  language : Option String
  languageProbability : Option Rat
deriving DecidableEq, Repr

/-- The Recognition Backend oracle for one pipeline invocation: the response
each of the three distinct `model.transcribe` call sites would produce if
reached. `.error ()` embeds the call raising an exception; `.ok` carries the
returned data (for the two text-producing calls, the list of segment texts). -/
structure Backend where
  detectResp : Except Unit DetectInfo
  transcribeResp : Except Unit (List String)
  translateResp : Except Unit (List String)

/-- The audio chunk file as the validity checks see it: whether
`os.path.exists` is true, the `os.path.getsize` result, and whether an
`OSError` is raised during those checks. -/
structure AudioFile where
  present : Bool
  size : Nat
  statError : Bool
deriving DecidableEq, Repr

/-- The detection trust threshold: the Python literal `0.3` of
`confidence > 0.3`, as the exact rational 3/10. -/
def confThreshold : Rat := mkRat 3 10

/-- Embeds Python `str.strip()` as used on the joined segment texts: drop
whitespace characters from both ends. Written structurally on the character
list so that concrete runs reduce. -/
def pyStrip (s : String) : String :=
  String.mk ((s.data.dropWhile Char.isWhitespace).reverse.dropWhile Char.isWhitespace).reverse

/-- Embeds `AudioTranslator.is_valid_audio_file`:
`os.path.exists(p) and os.path.getsize(p) > 1024`, with `OSError` caught and
turned into `False`. -/
def is_valid_audio_file (f : AudioFile) : Bool :=
  if f.statError then false else f.present && decide (f.size > 1024)

/-- The language-frequency table `detected_lang_cache` as an
insertion-ordered association list (a Python `dict` preserves insertion
order), paired with `last_detected_lang`. -/
structure LanguageMemory where
  cache : List (String × Nat)
  lastDetected : String
deriving DecidableEq, Repr

/-- Initial state from `AudioTranslator.__init__`: empty cache,
`last_detected_lang = "en"`. -/
def initMemory : LanguageMemory := ⟨[], "en"⟩

/-- Embeds `self.detected_lang_cache.get(lang, 0)`: the value stored at the
key, 0 when absent (dict keys are unique, so looking up the first matching
entry is the dict lookup). -/
def cacheGet : List (String × Nat) → String → Nat
  | [], _ => 0
  | p :: rest, k => if p.1 = k then p.2 else cacheGet rest k

/-- Embeds `self.detected_lang_cache[lang] = self.detected_lang_cache.get(lang, 0) + 1`:
increment in place if the key exists (a dict assignment to an existing key
keeps its position in the insertion order), else append at the end (a dict
assignment to a fresh key appends it). -/
def cacheIncr : List (String × Nat) → String → List (String × Nat)
  | [], k => [(k, 1)]
  | p :: rest, k => if p.1 = k then (p.1, p.2 + 1) :: rest else p :: cacheIncr rest k

/-- One comparison step of Python `max`: keep the current best unless the
next entry is strictly greater. -/
def bestStep (best q : String × Nat) : String × Nat :=
  if q.2 > best.2 then q else best

/-- Embeds `max(self.detected_lang_cache, key=self.detected_lang_cache.get)`:
Python `max` scans the keys in insertion order and replaces the current best
only on a strictly greater value, so the first-inserted maximal key wins.
Returns `none` exactly when the table is empty (Python would raise there, but
the code guards the call with `if self.detected_lang_cache:`). -/
def cacheArgmax (c : List (String × Nat)) : Option String :=
  match c with
  | [] => none
  | p :: rest => some ((rest.foldl bestStep p).1)

/-- Embeds `AudioTranslator.detect_language`. Returns the
`(detected_lang, confidence)` pair, the updated memory, and the backend calls
attempted. The inner `try` means a raising model call leaves the memory
unchanged and yields `(last_detected_lang, 0.0)`. -/
def detect_language (b : Backend) (f : AudioFile) (st : LanguageMemory) :
    (String × Rat) × LanguageMemory × List BackendCall :=
  if is_valid_audio_file f = false then
    ((st.lastDetected, 0), st, [])
  else
    let dcall : BackendCall := ⟨none, TaskKind.transcribeTask, 1⟩
    match b.detectResp with
    | .error _ => ((st.lastDetected, 0), st, [dcall])
    | .ok info =>
      let detected := info.language.getD st.lastDetected
      let conf := info.languageProbability.getD 0
      let st1 : LanguageMemory :=
        if conf > confThreshold then ⟨st.cache, detected⟩ else st
      ((detected, conf), st1, [dcall])

/-- Embeds lines 222–241 of `transcribe_and_translate`: the language
resolution step. For `source_lang = "auto"` it runs detection, caches
high-confidence non-English detections, and resolves either to the detected
language (confidence above 0.3) or to the most frequent cached language,
falling back to `last_detected_lang` when the cache is empty. An explicit
language is passed through untouched. -/
def resolve_language (b : Backend) (f : AudioFile) (source_lang : String)
    (st : LanguageMemory) : String × LanguageMemory × List BackendCall :=
  if source_lang = "auto" then
    let out := detect_language b f st
    let detected := out.1.1
    let conf := out.1.2
    let st1 := out.2.1
    let st2 : LanguageMemory :=
      if detected ≠ "en" ∧ conf > confThreshold then
        ⟨cacheIncr st1.cache detected, st1.lastDetected⟩
      else st1
    let resolved :=
      if conf > confThreshold then detected
      else
        match cacheArgmax st2.cache with
        | some l => l
        | none => st2.lastDetected
    (resolved, st2, out.2.2)
  else
    (source_lang, st, [])

/-- The per-chunk result triple returned by `transcribe_and_translate`
(`original_text, translated_text, source_lang`). -/
structure TranscriptionResult where
  originalText : String
  translatedText : String
  resolvedLanguage : String
deriving DecidableEq, Repr

/-- Embeds `AudioTranslator.transcribe_and_translate`. The function-wide
`try/except` is embedded by the explicit error branches of the transcription
and translation calls: a raise there returns `("", "", source_lang)` with
`source_lang` holding its value at the time of the raise (after resolution;
the resolution step itself cannot raise, since `detect_language` catches its
own exceptions). Returns the result, the final memory, and the backend calls
attempted in order. -/
def transcribe_and_translate (b : Backend) (f : AudioFile) (source_lang : String)
    (st : LanguageMemory) : TranscriptionResult × LanguageMemory × List BackendCall :=
  if is_valid_audio_file f = false then
    (⟨"", "", source_lang⟩, st, [])
  else
    let res := resolve_language b f source_lang st
    let resolved := res.1
    let st1 := res.2.1
    let calls1 := res.2.2
    let tcall : BackendCall :=
      ⟨if resolved ≠ "auto" then some resolved else none, TaskKind.transcribeTask, 5⟩
    match b.transcribeResp with
    | .error _ => (⟨"", "", resolved⟩, st1, calls1 ++ [tcall])
    | .ok segs =>
      let original_text := pyStrip (String.join segs)
      if original_text = "" ∨ resolved = "en" then
        (⟨original_text, original_text, resolved⟩, st1, calls1 ++ [tcall])
      else
        let trcall : BackendCall := ⟨some resolved, TaskKind.translateTask, 5⟩
        match b.translateResp with
        | .error _ => (⟨"", "", resolved⟩, st1, calls1 ++ [tcall, trcall])
        | .ok tsegs =>
          let t0 := pyStrip (String.join tsegs)
          let translated_text := if t0 = "" ∧ original_text ≠ "" then original_text else t0
          (⟨original_text, translated_text, resolved⟩, st1, calls1 ++ [tcall, trcall])

/-- One run-loop step sequence: thread the memory through a list of pipeline
invocations (each with its own backend responses, chunk file and requested
language), as the main loop in `run` does. -/
def runPipeline : List (Backend × AudioFile × String) → LanguageMemory → LanguageMemory
  | [], st => st
  | (b, f, lang) :: rest, st =>
      runPipeline rest (transcribe_and_translate b f lang st).2.1


/-! ### Concrete fixtures used by witnesses and counterexamples -/

/-- A usable chunk: present, 2000 bytes, no stat error. -/
def chunkOK : AudioFile := ⟨true, 2000, false⟩

/-- Scenario E chunk: present but only 500 bytes, under the 1024-byte gate. -/
def chunkSmall : AudioFile := ⟨true, 500, false⟩

/-- Scenario A backend: detects Japanese at 0.92, transcribes and translates. -/
def bJaHigh : Backend :=
  ⟨.ok ⟨some "ja", some (mkRat 92 100)⟩, .ok ["konnichiwa"], .ok [" Hello"]⟩

/-- Backend whose translate-task call raises while transcription succeeds. -/
def bTransFail : Backend := ⟨.error (), .ok [" hola"], .error ()⟩

/-- Backend detecting English at confidence 0.9. -/
def bEnHigh : Backend := ⟨.ok ⟨some "en", some (mkRat 9 10)⟩, .ok ["hi"], .ok ["hi"]⟩

/-- Backend detecting Japanese at low confidence 0.1. -/
def bLowConf : Backend := ⟨.ok ⟨some "ja", some (mkRat 1 10)⟩, .ok ["x"], .ok ["y"]⟩

/-- Backend raising at every call site. -/
def bAllFail : Backend := ⟨.error (), .error (), .error ()⟩

/-- Backend detecting Japanese at 0.92 whose transcription and translation
calls then raise. -/
def bJaThenFail : Backend := ⟨.ok ⟨some "ja", some (mkRat 92 100)⟩, .error (), .error ()⟩

/-! ### Helper lemmas about the frequency cache -/

theorem cacheGet_le_cacheIncr (c : List (String × Nat)) (l k : String) :
    cacheGet c k ≤ cacheGet (cacheIncr c l) k := by
  induction c with
  | nil => simp [cacheGet, cacheIncr]
  | cons p rest ih =>
    by_cases hp : p.1 = l
    · subst hp
      by_cases hk : p.1 = k
      · simp only [cacheIncr, cacheGet, if_pos rfl, if_pos hk]
        omega
      · simp only [cacheIncr, cacheGet, if_pos rfl, if_neg hk]
        exact le_refl _
    · by_cases hk : p.1 = k
      · simp only [cacheIncr, cacheGet, if_neg hp, if_pos hk]
        exact le_refl _
      · simp only [cacheIncr, cacheGet, if_neg hp, if_neg hk]
        exact ih

theorem cacheIncr_mem (c : List (String × Nat)) (l : String) (p : String × Nat)
    (hp : p ∈ c) : ∃ q ∈ cacheIncr c l, q.1 = p.1 ∧ p.2 ≤ q.2 := by
  induction c with
  | nil => cases hp
  | cons a rest ih =>
    by_cases ha : a.1 = l
    · rw [show cacheIncr (a :: rest) l = (a.1, a.2 + 1) :: rest from by
        simp only [cacheIncr, if_pos ha]]
      rcases List.mem_cons.mp hp with h | h
      · subst h
        exact ⟨(p.1, p.2 + 1), List.mem_cons_self _ _, rfl, Nat.le_succ _⟩
      · exact ⟨p, List.mem_cons_of_mem _ h, rfl, le_refl _⟩
    · rw [show cacheIncr (a :: rest) l = a :: cacheIncr rest l from by
        simp only [cacheIncr, if_neg ha]]
      rcases List.mem_cons.mp hp with h | h
      · subst h
        exact ⟨p, List.mem_cons_self _ _, rfl, le_refl _⟩
      · rcases ih h with ⟨q, hq, hq1, hq2⟩
        exact ⟨q, List.mem_cons_of_mem _ hq, hq1, hq2⟩

theorem cacheIncr_keys (c : List (String × Nat)) (l : String) (q : String × Nat)
    (hq : q ∈ cacheIncr c l) : q.1 = l ∨ ∃ p ∈ c, p.1 = q.1 := by
  induction c with
  | nil =>
    simp only [cacheIncr, List.mem_singleton] at hq
    subst hq
    exact Or.inl rfl
  | cons a rest ih =>
    by_cases ha : a.1 = l
    · rw [show cacheIncr (a :: rest) l = (a.1, a.2 + 1) :: rest from by
        simp only [cacheIncr, if_pos ha]] at hq
      rcases List.mem_cons.mp hq with h | h
      · subst h
        exact Or.inl ha
      · exact Or.inr ⟨q, List.mem_cons_of_mem _ h, rfl⟩
    · rw [show cacheIncr (a :: rest) l = a :: cacheIncr rest l from by
        simp only [cacheIncr, if_neg ha]] at hq
      rcases List.mem_cons.mp hq with h | h
      · subst h
        exact Or.inr ⟨q, List.mem_cons_self _ _, rfl⟩
      · rcases ih h with h2 | ⟨p, hp, hp1⟩
        · exact Or.inl h2
        · exact Or.inr ⟨p, List.mem_cons_of_mem _ hp, hp1⟩

/-- The best-so-far fold underlying `cacheArgmax` lands on the first maximal
entry: the scanned list splits into a strictly smaller prefix, the winner, and
a no-larger suffix. -/
theorem foldl_bestStep_spec (rest : List (String × Nat)) (best : String × Nat) :
    ∃ l₁ l₂, best :: rest = l₁ ++ (rest.foldl bestStep best) :: l₂ ∧
      (∀ p ∈ l₁, p.2 < (rest.foldl bestStep best).2) ∧
      (∀ p ∈ l₂, p.2 ≤ (rest.foldl bestStep best).2) := by
  induction rest generalizing best with
  | nil => exact ⟨[], [], rfl, by simp, by simp⟩
  | cons q rest ih =>
    by_cases hq : q.2 > best.2
    · have hstep : (q :: rest).foldl bestStep best = rest.foldl bestStep q := by
        simp only [List.foldl_cons, bestStep, if_pos hq]
      rw [hstep]
      rcases ih q with ⟨l₁, l₂, heq, hlt, hle⟩
      have hmem : ∀ p ∈ q :: rest, p.2 ≤ (rest.foldl bestStep q).2 := by
        intro p hp
        rw [heq] at hp
        rcases List.mem_append.mp hp with h | h
        · exact le_of_lt (hlt p h)
        · rcases List.mem_cons.mp h with h | h
          · subst h
            exact le_refl _
          · exact hle p h
      refine ⟨best :: l₁, l₂, congrArg (fun x => best :: x) heq, ?_, hle⟩
      intro p hp
      rcases List.mem_cons.mp hp with h | h
      · subst h
        exact lt_of_lt_of_le hq (hmem q (List.mem_cons_self _ _))
      · exact hlt p h
    · have hstep : (q :: rest).foldl bestStep best = rest.foldl bestStep best := by
        simp only [List.foldl_cons, bestStep, if_neg hq]
      rw [hstep]
      have hq_le : q.2 ≤ best.2 := Nat.not_lt.mp hq
      rcases ih best with ⟨l₁, l₂, heq, hlt, hle⟩
      rcases l₁ with _ | ⟨a, t⟩
      · injection heq with h1 h2
        refine ⟨[], q :: l₂, ?_, by simp, ?_⟩
        · show best :: q :: rest = (rest.foldl bestStep best) :: q :: l₂
          rw [← h1, h2]
        · intro p hp
          rcases List.mem_cons.mp hp with h | h
          · subst h
            exact le_trans hq_le (le_of_eq (congrArg Prod.snd h1))
          · exact hle p h
      · injection heq with h1 h2
        have hbest_lt : best.2 < (rest.foldl bestStep best).2 :=
          lt_of_le_of_lt (le_of_eq (congrArg Prod.snd h1)) (hlt a (List.mem_cons_self _ _))
        refine ⟨best :: q :: t, l₂, congrArg (fun x => best :: q :: x) h2, ?_, hle⟩
        intro p hp
        rcases List.mem_cons.mp hp with h | h
        · subst h
          exact hbest_lt
        · rcases List.mem_cons.mp h with h2m | h2m
          · subst h2m
            exact lt_of_le_of_lt hq_le hbest_lt
          · exact hlt p (List.mem_cons_of_mem _ h2m)

/-- `cacheArgmax` returns the key of the first entry holding the maximal
count: the table splits into a strictly smaller prefix, that entry, and a
no-larger suffix. -/
theorem cacheArgmax_spec (c : List (String × Nat)) (r : String)
    (h : cacheArgmax c = some r) :
    ∃ v l₁ l₂, c = l₁ ++ (r, v) :: l₂ ∧
      (∀ p ∈ l₁, p.2 < v) ∧ (∀ p ∈ l₂, p.2 ≤ v) := by
  match c with
  | [] => simp [cacheArgmax] at h
  | p :: rest =>
    simp only [cacheArgmax, Option.some.injEq] at h
    rcases foldl_bestStep_spec rest p with ⟨l₁, l₂, heq, hlt, hle⟩
    refine ⟨(rest.foldl bestStep p).2, l₁, l₂, ?_, hlt, hle⟩
    rw [heq, ← h]

theorem cacheArgmax_mem (c : List (String × Nat)) (r : String)
    (h : cacheArgmax c = some r) : ∃ v, (r, v) ∈ c := by
  rcases cacheArgmax_spec c r h with ⟨v, l₁, l₂, heq, _, _⟩
  exact ⟨v, heq ▸ List.mem_append_right _ (List.mem_cons_self _ _)⟩

/-! ### Projection lemmas for the pipeline -/

theorem tt_resolvedLanguage (b : Backend) (f : AudioFile) (lang : String)
    (st : LanguageMemory) (hv : is_valid_audio_file f = true) :
    (transcribe_and_translate b f lang st).1.resolvedLanguage =
      (resolve_language b f lang st).1 := by
  unfold transcribe_and_translate
  simp only [hv, Bool.true_eq_false, if_false]
  rcases b.transcribeResp with _ | segs
  · rfl
  · dsimp only
    split
    · rfl
    · rcases b.translateResp with _ | tsegs <;> rfl

theorem tt_memory (b : Backend) (f : AudioFile) (lang : String)
    (st : LanguageMemory) (hv : is_valid_audio_file f = true) :
    (transcribe_and_translate b f lang st).2.1 = (resolve_language b f lang st).2.1 := by
  unfold transcribe_and_translate
  simp only [hv, Bool.true_eq_false, if_false]
  rcases b.transcribeResp with _ | segs
  · rfl
  · dsimp only
    split
    · rfl
    · rcases b.translateResp with _ | tsegs <;> rfl

theorem resolve_calls_task (b : Backend) (f : AudioFile) (lang : String)
    (st : LanguageMemory) :
    ∀ c ∈ (resolve_language b f lang st).2.2, c.task = TaskKind.transcribeTask := by
  unfold resolve_language detect_language
  split
  · split
    · intro c hc
      cases hc
    · rcases b.detectResp with _ | info
      · intro c hc
        rcases List.mem_singleton.mp hc with rfl
        rfl
      · intro c hc
        rcases List.mem_singleton.mp hc with rfl
        rfl
  · intro c hc
    cases hc

/-! ### Claim theorems -/

/-- Claim C5: for every chunk failing the `is_valid_audio_file` gate
(missing file or size not exceeding 1024 bytes), the pipeline returns the
empty-text result and attempts zero Recognition Backend calls. -/
theorem C5_unusable_chunk_empty_no_calls (b : Backend) (f : AudioFile)
    (lang : String) (st : LanguageMemory)
    (h : f.present = false ∨ f.size ≤ 1024) :
    transcribe_and_translate b f lang st = (⟨"", "", lang⟩, st, []) := by
  have hv : is_valid_audio_file f = false := by
    unfold is_valid_audio_file
    by_cases hs : f.statError
    · simp [hs]
    · rcases h with h | h
      · simp [hs, h]
      · have hgt : ¬(f.size > 1024) := by omega
        simp [hs, hgt]
  unfold transcribe_and_translate
  simp [hv]

/-- Witness for C5 at Scenario E: a present 500-byte chunk. -/
theorem C5_witness :
    (chunkSmall.present = false ∨ chunkSmall.size ≤ 1024) ∧
      transcribe_and_translate bAllFail chunkSmall "auto" initMemory =
        (⟨"", "", "auto"⟩, initMemory, []) :=
  ⟨Or.inr (by decide),
   C5_unusable_chunk_empty_no_calls bAllFail chunkSmall "auto" initMemory (Or.inr (by decide))⟩

/-- Claim C7: an invocation with an explicit (non-"auto") requested language
leaves the Language Memory untouched on every exit path, backend failures
included. -/
theorem C7_explicit_lang_preserves_memory (b : Backend) (f : AudioFile)
    (lang : String) (st : LanguageMemory) (h : lang ≠ "auto") :
    (transcribe_and_translate b f lang st).2.1 = st := by
  cases hb : is_valid_audio_file f with
  | false =>
    unfold transcribe_and_translate
    simp [hb]
  | true =>
    rw [tt_memory b f lang st hb]
    unfold resolve_language
    simp [h]

/-- Witness for C7 at an explicit Japanese request. -/
theorem C7_witness :
    ("ja" ≠ "auto") ∧
      (transcribe_and_translate bJaHigh chunkOK "ja" initMemory).2.1 = initMemory :=
  ⟨by decide, C7_explicit_lang_preserves_memory bJaHigh chunkOK "ja" initMemory (by decide)⟩

/-- Claim C9: for every chunk and every pattern of backend failures the
pipeline returns a plain result (the embedding is total and the failure
branches return empty-ish results): a failed transcription yields empty
texts, and a failed translation leaves the translated text equal to the
original one reported in the result. -/
theorem C9_failures_absorbed (b : Backend) (f : AudioFile) (lang : String)
    (st : LanguageMemory) :
    ∃ r st2 cs, transcribe_and_translate b f lang st = (r, st2, cs) ∧
      (b.transcribeResp = .error () → r.originalText = "" ∧ r.translatedText = "") ∧
      (b.translateResp = .error () → r.translatedText = r.originalText) := by
  refine ⟨(transcribe_and_translate b f lang st).1,
    (transcribe_and_translate b f lang st).2.1,
    (transcribe_and_translate b f lang st).2.2, rfl, ?_, ?_⟩
  · intro htr
    cases hb : is_valid_audio_file f with
    | false =>
      unfold transcribe_and_translate
      simp [hb]
    | true =>
      unfold transcribe_and_translate
      simp [hb, htr]
  · intro hte
    cases hb : is_valid_audio_file f with
    | false =>
      unfold transcribe_and_translate
      simp [hb]
    | true =>
      unfold transcribe_and_translate
      simp only [hb, Bool.true_eq_false, if_false]
      rcases htr : b.transcribeResp with _ | segs
      · simp
      · dsimp only
        split
        · rfl
        · simp [hte]

/-- Witness for C9: with every call site failing, the invocation still
produces the empty result. -/
theorem C9_witness :
    (transcribe_and_translate bAllFail chunkOK "auto" initMemory).1.originalText = "" ∧
      (transcribe_and_translate bAllFail chunkOK "auto" initMemory).1.translatedText = "" := by
  obtain ⟨r, st2, cs, heq, h1, h2⟩ := C9_failures_absorbed bAllFail chunkOK "auto" initMemory
  have h := h1 rfl
  exact ⟨by rw [heq]; exact h.1, by rw [heq]; exact h.2⟩

/-- Claim C10: in auto mode, a trusted (confidence above 0.3) non-English
detection commits its cache increment and lastConfirmed update whatever the
later transcription and translation calls do — the memory mutation is never
rolled back by a later failure in the same invocation. -/
theorem C10_memory_update_never_rolled_back (b : Backend) (f : AudioFile)
    (st : LanguageMemory) (info : DetectInfo)
    (hv : is_valid_audio_file f = true)
    (hb : b.detectResp = .ok info)
    (hconf : info.languageProbability.getD 0 > confThreshold)
    (hlang : info.language.getD st.lastDetected ≠ "en") :
    (transcribe_and_translate b f "auto" st).2.1 =
      ⟨cacheIncr st.cache (info.language.getD st.lastDetected),
       info.language.getD st.lastDetected⟩ := by
  rw [tt_memory b f "auto" st hv]
  unfold resolve_language detect_language
  simp [hv, hb, hconf, hlang]

/-- Witness for C10: Japanese detected at 0.92, then both remaining calls
raise; the frequency increment for "ja" survives. -/
theorem C10_witness :
    is_valid_audio_file chunkOK = true ∧
      bJaThenFail.detectResp = .ok ⟨some "ja", some (mkRat 92 100)⟩ ∧
      ((⟨some "ja", some (mkRat 92 100)⟩ : DetectInfo).languageProbability.getD 0 > confThreshold) ∧
      ((⟨some "ja", some (mkRat 92 100)⟩ : DetectInfo).language.getD initMemory.lastDetected ≠ "en") ∧
      (transcribe_and_translate bJaThenFail chunkOK "auto" initMemory).2.1 =
        ⟨cacheIncr initMemory.cache "ja", "ja"⟩ :=
  ⟨rfl, rfl, by decide, by decide,
   C10_memory_update_never_rolled_back bJaThenFail chunkOK initMemory
     ⟨some "ja", some (mkRat 92 100)⟩ rfl rfl (by decide) (by decide)⟩

theorem detect_cache_unchanged (b : Backend) (f : AudioFile) (st : LanguageMemory) :
    (detect_language b f st).2.1.cache = st.cache := by
  unfold detect_language
  split
  · rfl
  · rcases b.detectResp with _ | info
    · rfl
    · dsimp only
      split <;> rfl

theorem detect_lastDetected_cases (b : Backend) (f : AudioFile) (st : LanguageMemory) :
    (detect_language b f st).2.1.lastDetected = st.lastDetected ∨
    (detect_language b f st).2.1.lastDetected = (detect_language b f st).1.1 := by
  unfold detect_language
  split
  · exact Or.inl rfl
  · rcases b.detectResp with _ | info
    · exact Or.inl rfl
    · dsimp only
      split
      · exact Or.inr rfl
      · exact Or.inl rfl

theorem detect_detected_cases (b : Backend) (f : AudioFile) (st : LanguageMemory) :
    (detect_language b f st).1.1 = st.lastDetected ∨
    ∃ info l, b.detectResp = .ok info ∧ info.language = some l ∧
      (detect_language b f st).1.1 = l := by
  unfold detect_language
  split
  · exact Or.inl rfl
  · rcases hd : b.detectResp with _ | info
    · exact Or.inl rfl
    · rcases hli : info.language with _ | l
      · refine Or.inl ?_
        dsimp only
        rw [hli]
        rfl
      · refine Or.inr ⟨info, l, rfl, hli, ?_⟩
        dsimp only
        rw [hli]
        rfl

/-- Where the resolved language can come from: the explicit request (when it
is not "auto"), the freshly detected language, the post-detection
lastConfirmed, or the key of some pre-existing cache entry. -/
theorem resolve_resolved_cases (b : Backend) (f : AudioFile) (lang : String)
    (st : LanguageMemory) :
    (lang ≠ "auto" ∧ (resolve_language b f lang st).1 = lang) ∨
    (resolve_language b f lang st).1 = (detect_language b f st).1.1 ∨
    (resolve_language b f lang st).1 = (detect_language b f st).2.1.lastDetected ∨
    (∃ p ∈ st.cache, (resolve_language b f lang st).1 = p.1) := by
  by_cases hauto : lang = "auto"
  case neg =>
    refine Or.inl ⟨hauto, ?_⟩
    unfold resolve_language
    rw [if_neg hauto]
  case pos =>
    subst hauto
    have hcache : (detect_language b f st).2.1.cache = st.cache :=
      detect_cache_unchanged b f st
    unfold resolve_language
    rw [if_pos rfl]
    dsimp only
    by_cases hconf : (detect_language b f st).1.2 > confThreshold
    · rw [if_pos hconf]
      exact Or.inr (Or.inl rfl)
    · rw [if_neg hconf]
      have hst2 : ¬((detect_language b f st).1.1 ≠ "en" ∧
          (detect_language b f st).1.2 > confThreshold) := fun h => hconf h.2
      rw [if_neg hst2, hcache]
      rcases hm : cacheArgmax st.cache with _ | l
      · exact Or.inr (Or.inr (Or.inl rfl))
      · rcases cacheArgmax_mem _ l hm with ⟨v, hvmem⟩
        exact Or.inr (Or.inr (Or.inr ⟨(l, v), hvmem, rfl⟩))

/-- Claim C1 counterexample: on the invalid-chunk path (500-byte file) with
requested language "auto", the completed invocation returns the sentinel
"auto" itself as resolvedLanguage, contradicting the invariant as stated. -/
theorem C1_counterexample :
    (transcribe_and_translate bJaHigh chunkSmall "auto" initMemory).1.resolvedLanguage
      = "auto" := by decide

/-- Claim C1 as amended: once the chunk passes the validity gate, the
resolved language is never the sentinel "auto", provided the backend never
reports "auto" as a detected language and the memory holds no "auto" entry;
the invalid-chunk path instead echoes the requested language, which is the
sentinel itself when "auto" was requested. -/
theorem C1_amended_resolved_never_auto (b : Backend) (f : AudioFile)
    (lang : String) (st : LanguageMemory)
    (hv : is_valid_audio_file f = true)
    (hb : ∀ info l, b.detectResp = .ok info → info.language = some l → l ≠ "auto")
    (hl : st.lastDetected ≠ "auto")
    (hc : ∀ p ∈ st.cache, p.1 ≠ "auto") :
    (transcribe_and_translate b f lang st).1.resolvedLanguage ≠ "auto" := by
  rw [tt_resolvedLanguage b f lang st hv]
  have hdet : (detect_language b f st).1.1 ≠ "auto" := by
    rcases detect_detected_cases b f st with h | ⟨info, l, hinfo, hlang2, h⟩
    · rw [h]; exact hl
    · rw [h]; exact hb info l hinfo hlang2
  have hld : (detect_language b f st).2.1.lastDetected ≠ "auto" := by
    rcases detect_lastDetected_cases b f st with h | h
    · rw [h]; exact hl
    · rw [h]; exact hdet
  rcases resolve_resolved_cases b f lang st with ⟨hne, h⟩ | h | h | ⟨p, hp, h⟩
  · rw [h]; exact hne
  · rw [h]; exact hdet
  · rw [h]; exact hld
  · rw [h]; exact hc p hp

/-- Witness for the amended C1 at Scenario A inputs. -/
theorem C1_witness :
    (transcribe_and_translate bJaHigh chunkOK "auto" initMemory).1.resolvedLanguage
      ≠ "auto" := by
  refine C1_amended_resolved_never_auto bJaHigh chunkOK "auto" initMemory rfl ?_ (by decide) ?_
  · intro info l h1 h2
    injection h1 with h3
    subst h3
    injection h2 with h4
    subst h4
    decide
  · intro p hp
    simp [initMemory] at hp

/-- Claim C2 counterexample: with a valid chunk, an explicit "ja" request, a
successful non-empty transcription and a raising translate call, the
function-wide handler returns the fully empty result: translatedText is ""
and not the transcribed text "hola". -/
theorem C2_counterexample :
    bTransFail.transcribeResp = .ok [" hola"] ∧
    pyStrip (String.join [" hola"]) = "hola" ∧
    bTransFail.translateResp = .error () ∧
    (transcribe_and_translate bTransFail chunkOK "ja" initMemory).1 = ⟨"", "", "ja"⟩ ∧
    (transcribe_and_translate bTransFail chunkOK "ja" initMemory).1.translatedText
      ≠ pyStrip (String.join [" hola"]) :=
  ⟨rfl, by decide, rfl, by decide, by decide⟩

/-- Claim C2 as amended: when the transcription succeeded with non-empty
text, the resolved language needs translation, and the translate call
raises, the pipeline still returns a result (no exception propagates), but
the whole-function handler discards the transcription: both originalText and
translatedText come back empty. The translatedText := originalText fallback
applies only when the translate call returns empty text without raising. -/
theorem C2_amended_translate_failure_empty_result (b : Backend) (f : AudioFile)
    (lang : String) (st : LanguageMemory) (segs : List String)
    (hv : is_valid_audio_file f = true)
    (ht : b.transcribeResp = .ok segs)
    (hne : pyStrip (String.join segs) ≠ "")
    (hres : (resolve_language b f lang st).1 ≠ "en")
    (hte : b.translateResp = .error ()) :
    (transcribe_and_translate b f lang st).1 =
      ⟨"", "", (resolve_language b f lang st).1⟩ := by
  unfold transcribe_and_translate
  simp only [hv, Bool.true_eq_false, if_false, ht]
  have hcond : ¬(pyStrip (String.join segs) = "" ∨
      (resolve_language b f lang st).1 = "en") := by
    rintro (h | h)
    · exact hne h
    · exact hres h
  rw [if_neg hcond]
  simp [hte]

/-- Witness for the amended C2 at the counterexample inputs. -/
theorem C2_witness :
    (transcribe_and_translate bTransFail chunkOK "ja" initMemory).1 =
      ⟨"", "", (resolve_language bTransFail chunkOK "ja" initMemory).1⟩ :=
  C2_amended_translate_failure_empty_result bTransFail chunkOK "ja" initMemory
    [" hola"] rfl rfl (by decide) (by decide) rfl

/-- Claim C3 counterexample: detection reports "en" at confidence 0.9 while
lastConfirmed is "ja"; the claim says lastConfirmed must stay unchanged
(language is "en"), but the code updates it to "en". -/
theorem C3_counterexample :
    bEnHigh.detectResp = .ok ⟨some "en", some (mkRat 9 10)⟩ ∧
    mkRat 9 10 > confThreshold ∧
    (transcribe_and_translate bEnHigh chunkOK "auto"
        (⟨[], "ja"⟩ : LanguageMemory)).2.1.lastDetected = "en" ∧
    ("en" : String) ≠ "ja" :=
  ⟨rfl, by decide, by decide, by decide⟩

/-- Claim C3 as amended: on a detection observation, lastConfirmed is set to
the detected language iff the confidence exceeds 0.3 — with no exception for
"en" (only the frequency-table increment is guarded by lang ≠ "en", and the
detection step itself never touches the frequency table). -/
theorem C3_amended_lastConfirmed_update (b : Backend) (f : AudioFile)
    (st : LanguageMemory) (info : DetectInfo)
    (hv : is_valid_audio_file f = true)
    (hb : b.detectResp = .ok info) :
    ((detect_language b f st).2.1.lastDetected =
      if info.languageProbability.getD 0 > confThreshold
      then info.language.getD st.lastDetected else st.lastDetected) ∧
    (detect_language b f st).2.1.cache = st.cache := by
  refine ⟨?_, detect_cache_unchanged b f st⟩
  unfold detect_language
  simp only [hv, Bool.true_eq_false, if_false, hb]
  split <;> rfl

/-- Witness for the amended C3: high-confidence "en" detection overwrites a
"ja" lastConfirmed. -/
theorem C3_witness :
    ((detect_language bEnHigh chunkOK (⟨[], "ja"⟩ : LanguageMemory)).2.1.lastDetected =
      if (⟨some "en", some (mkRat 9 10)⟩ : DetectInfo).languageProbability.getD 0 > confThreshold
      then (⟨some "en", some (mkRat 9 10)⟩ : DetectInfo).language.getD
        (⟨[], "ja"⟩ : LanguageMemory).lastDetected
      else (⟨[], "ja"⟩ : LanguageMemory).lastDetected) ∧
    (detect_language bEnHigh chunkOK (⟨[], "ja"⟩ : LanguageMemory)).2.1.cache =
      (⟨[], "ja"⟩ : LanguageMemory).cache :=
  C3_amended_lastConfirmed_update bEnHigh chunkOK ⟨[], "ja"⟩
    ⟨some "en", some (mkRat 9 10)⟩ rfl rfl

theorem detect_lastDetected_low (b : Backend) (f : AudioFile) (st : LanguageMemory)
    (hconf : (detect_language b f st).1.2 ≤ confThreshold) :
    (detect_language b f st).2.1.lastDetected = st.lastDetected := by
  unfold detect_language at hconf ⊢
  cases hb : is_valid_audio_file f with
  | false => simp [hb]
  | true =>
    simp only [hb, Bool.true_eq_false, if_false] at hconf ⊢
    rcases hd : b.detectResp with _ | info
    · rfl
    · rw [hd] at hconf
      dsimp only at hconf ⊢
      rw [if_neg (not_lt.mpr hconf)]

theorem resolve_low_some (b : Backend) (f : AudioFile) (st : LanguageMemory)
    (l : String) (hconf : (detect_language b f st).1.2 ≤ confThreshold)
    (hm : cacheArgmax st.cache = some l) :
    (resolve_language b f "auto" st).1 = l := by
  unfold resolve_language
  rw [if_pos rfl]
  dsimp only
  have h1 : ¬((detect_language b f st).1.2 > confThreshold) := not_lt.mpr hconf
  have hst2 : ¬((detect_language b f st).1.1 ≠ "en" ∧
      (detect_language b f st).1.2 > confThreshold) := fun h => h1 h.2
  rw [if_neg h1, if_neg hst2, detect_cache_unchanged b f st, hm]

theorem resolve_low_none (b : Backend) (f : AudioFile) (st : LanguageMemory)
    (hconf : (detect_language b f st).1.2 ≤ confThreshold)
    (hm : cacheArgmax st.cache = none) :
    (resolve_language b f "auto" st).1 = st.lastDetected := by
  unfold resolve_language
  rw [if_pos rfl]
  dsimp only
  have h1 : ¬((detect_language b f st).1.2 > confThreshold) := not_lt.mpr hconf
  have hst2 : ¬((detect_language b f st).1.1 ≠ "en" ∧
      (detect_language b f st).1.2 > confThreshold) := fun h => h1 h.2
  rw [if_neg h1, if_neg hst2, detect_cache_unchanged b f st, hm]
  exact detect_lastDetected_low b f st hconf

/-- Claim C4: under an "auto" request with detection confidence at most 0.3,
the resolved language is the first-inserted maximal entry of the frequency
table (stable argmax: strictly smaller before it, no larger after it, and no
count in the table exceeds it); with an empty table it is lastConfirmed. -/
theorem C4_low_confidence_stable_argmax (b : Backend) (f : AudioFile)
    (st : LanguageMemory)
    (hv : is_valid_audio_file f = true)
    (hconf : (detect_language b f st).1.2 ≤ confThreshold) :
    (st.cache = [] →
      (transcribe_and_translate b f "auto" st).1.resolvedLanguage = st.lastDetected) ∧
    (st.cache ≠ [] → ∃ v l₁ l₂,
      st.cache = l₁ ++
        ((transcribe_and_translate b f "auto" st).1.resolvedLanguage, v) :: l₂ ∧
      (∀ p ∈ l₁, p.2 < v) ∧ (∀ p ∈ l₂, p.2 ≤ v) ∧
      (∀ p ∈ st.cache, p.2 ≤ v)) := by
  rw [tt_resolvedLanguage b f "auto" st hv]
  constructor
  · intro hempty
    have hm : cacheArgmax st.cache = none := by rw [hempty]; rfl
    exact resolve_low_none b f st hconf hm
  · intro hne
    have hsome : ∃ l, cacheArgmax st.cache = some l := by
      rcases hm : cacheArgmax st.cache with _ | l
      · cases hcc : st.cache with
        | nil => exact absurd hcc hne
        | cons p rest =>
          rw [hcc] at hm
          simp [cacheArgmax] at hm
      · exact ⟨l, rfl⟩
    rcases hsome with ⟨l, hm⟩
    rw [resolve_low_some b f st l hconf hm]
    rcases cacheArgmax_spec st.cache l hm with ⟨v, l₁, l₂, heq, hlt, hle⟩
    refine ⟨v, l₁, l₂, heq, hlt, hle, ?_⟩
    intro p hp
    rw [heq] at hp
    rcases List.mem_append.mp hp with h | h
    · exact le_of_lt (hlt p h)
    · rcases List.mem_cons.mp h with h | h
      · subst h
        exact le_refl _
      · exact hle p h

/-- Witness for C4: low-confidence detection over the table
ja:2, ko:2, fr:1 resolves to the first-inserted maximum. -/
theorem C4_witness :
    ∃ v l₁ l₂,
      (⟨[("ja", 2), ("ko", 2), ("fr", 1)], "fr"⟩ : LanguageMemory).cache = l₁ ++
        ((transcribe_and_translate bLowConf chunkOK "auto"
          (⟨[("ja", 2), ("ko", 2), ("fr", 1)], "fr"⟩ : LanguageMemory)).1.resolvedLanguage,
          v) :: l₂ ∧
      (∀ p ∈ l₁, p.2 < v) ∧ (∀ p ∈ l₂, p.2 ≤ v) ∧
      (∀ p ∈ (⟨[("ja", 2), ("ko", 2), ("fr", 1)], "fr"⟩ : LanguageMemory).cache,
        p.2 ≤ v) :=
  (C4_low_confidence_stable_argmax bLowConf chunkOK
    ⟨[("ja", 2), ("ko", 2), ("fr", 1)], "fr"⟩ rfl (by decide)).2 (by decide)

/-- Claim C6: when the trimmed transcription is empty or the resolved
language is "en", the returned translatedText equals originalText and no
translate-task backend call is attempted. -/
theorem C6_early_exit_no_translate (b : Backend) (f : AudioFile) (lang : String)
    (st : LanguageMemory) (segs : List String)
    (hv : is_valid_audio_file f = true)
    (ht : b.transcribeResp = .ok segs)
    (h : pyStrip (String.join segs) = "" ∨ (resolve_language b f lang st).1 = "en") :
    (transcribe_and_translate b f lang st).1.translatedText =
      (transcribe_and_translate b f lang st).1.originalText ∧
    ∀ c ∈ (transcribe_and_translate b f lang st).2.2,
      c.task = TaskKind.transcribeTask := by
  unfold transcribe_and_translate
  simp only [hv, Bool.true_eq_false, if_false, ht]
  rw [if_pos h]
  refine ⟨rfl, ?_⟩
  intro c hc
  rcases List.mem_append.mp hc with h2 | h2
  · exact resolve_calls_task b f lang st c h2
  · rcases List.mem_singleton.mp h2 with rfl
    rfl

/-- Witness for C6: high-confidence English detection, Scenario B style. -/
theorem C6_witness :
    (transcribe_and_translate bEnHigh chunkOK "auto" initMemory).1.translatedText =
      (transcribe_and_translate bEnHigh chunkOK "auto" initMemory).1.originalText ∧
    ∀ c ∈ (transcribe_and_translate bEnHigh chunkOK "auto" initMemory).2.2,
      c.task = TaskKind.transcribeTask :=
  C6_early_exit_no_translate bEnHigh chunkOK "auto" initMemory ["hi"] rfl rfl
    (Or.inr (by decide))

theorem tt_cache_step (b : Backend) (f : AudioFile) (lang : String)
    (st : LanguageMemory) :
    (transcribe_and_translate b f lang st).2.1.cache = st.cache ∨
    ∃ l, (transcribe_and_translate b f lang st).2.1.cache = cacheIncr st.cache l := by
  cases hb : is_valid_audio_file f with
  | false =>
    left
    unfold transcribe_and_translate
    simp [hb]
  | true =>
    rw [tt_memory b f lang st hb]
    unfold resolve_language
    split
    · dsimp only
      split
      · right
        refine ⟨(detect_language b f st).1.1, ?_⟩
        show cacheIncr (detect_language b f st).2.1.cache (detect_language b f st).1.1 =
          cacheIncr st.cache (detect_language b f st).1.1
        rw [detect_cache_unchanged b f st]
      · left
        exact detect_cache_unchanged b f st
    · left
      rfl

/-- Claim C8: across any sequence of pipeline invocations in one run, every
frequency count is monotone (never decreases) and every table entry survives
(with a count at least its old one) — the table only grows or increments. -/
theorem C8_frequency_monotone (steps : List (Backend × AudioFile × String))
    (st : LanguageMemory) :
    (∀ k, cacheGet st.cache k ≤ cacheGet (runPipeline steps st).cache k) ∧
    (∀ p ∈ st.cache, ∃ q ∈ (runPipeline steps st).cache, q.1 = p.1 ∧ p.2 ≤ q.2) := by
  induction steps generalizing st with
  | nil => exact ⟨fun k => le_refl _, fun p hp => ⟨p, hp, rfl, le_refl _⟩⟩
  | cons step rest ih =>
    rcases step with ⟨b, f, lang⟩
    have hrun : runPipeline ((b, f, lang) :: rest) st =
        runPipeline rest (transcribe_and_translate b f lang st).2.1 := rfl
    rw [hrun]
    have hstep := tt_cache_step b f lang st
    rcases ih ((transcribe_and_translate b f lang st).2.1) with ⟨ih1, ih2⟩
    constructor
    · intro k
      refine le_trans ?_ (ih1 k)
      rcases hstep with h | ⟨l, h⟩
      · rw [h]
      · rw [h]
        exact cacheGet_le_cacheIncr st.cache l k
    · intro p hp
      have hmid : ∃ q ∈ (transcribe_and_translate b f lang st).2.1.cache,
          q.1 = p.1 ∧ p.2 ≤ q.2 := by
        rcases hstep with h | ⟨l, h⟩
        · rw [h]
          exact ⟨p, hp, rfl, le_refl _⟩
        · rw [h]
          exact cacheIncr_mem st.cache l p hp
      rcases hmid with ⟨q, hq, hq1, hq2⟩
      rcases ih2 q hq with ⟨r, hr, hr1, hr2⟩
      exact ⟨r, hr, hr1.trans hq1, le_trans hq2 hr2⟩

/-- Witness for C8 over one Scenario A step starting from ja:1. -/
theorem C8_witness :
    cacheGet (⟨[("ja", 1)], "en"⟩ : LanguageMemory).cache "ja" ≤
      cacheGet (runPipeline [(bJaHigh, chunkOK, "auto")]
        ⟨[("ja", 1)], "en"⟩).cache "ja" ∧
    ∃ q ∈ (runPipeline [(bJaHigh, chunkOK, "auto")] ⟨[("ja", 1)], "en"⟩).cache,
      q.1 = ("ja", 1).1 ∧ ("ja", 1).2 ≤ q.2 :=
  ⟨(C8_frequency_monotone [(bJaHigh, chunkOK, "auto")] ⟨[("ja", 1)], "en"⟩).1 "ja",
   (C8_frequency_monotone [(bJaHigh, chunkOK, "auto")] ⟨[("ja", 1)], "en"⟩).2
     ("ja", 1) (by decide)⟩
